import Mathlib

/-!
# Verification of the Dead Link Checker core (`checker.py`)

Shallow embedding of the crawl/check pipeline of `DeadLinkChecker`.

Modelling conventions:
* URL strings are `List Char` (named `Url` below); this matches Python string
  operations character by character.
* Python's `urllib.parse.urlparse` components that the source consults
  (`scheme`, `netloc`, `path`) are embedded as functions on `List Char`
  following CPython's `urlsplit`/`_splitparams`.
* Network effects (the HTTP transport used by `check_link` and the page
  fetch + HTML parse performed by `extract_links`) are supplied by an
  environment record `CrawlEnv`: `extract` gives, for each page URL, the
  list of absolute normalized eligible links that `extract_links` returns
  for it, and `headOut`/`getOut` give the transport outcome of the HEAD
  request and of the 405-fallback GET request of `check_link`.
* Wall-clock readings (`datetime.now()`) are supplied as explicit `Nat`
  timestamps; measured response times are exact rationals.
* The recursive `scan_page` is embedded with an explicit fuel argument
  (`scan_page_aux`); the entry point `scan_page` instantiates the fuel with
  `max_depth + 1 - depth`, which strictly dominates the recursion depth of
  the source (every recursive call increments `depth`, and recursion is
  guarded by `depth < max_depth`), so the fuel-exhaustion branch is
  unreachable from the entry point.
-/

namespace LinkCheck

abbrev Url := List Char

/-! ## Python `urllib.parse` model -/

/-- Characters Python allows in a URL scheme after the first one
(`scheme_chars` in `urllib.parse`): letters, digits, `+`, `-`, `.`. -/
def schemeChar (c : Char) : Bool :=
  c.isAlpha || c.isDigit || c == '+' || c == '-' || c == '.'

/-- The `scheme` component of `urlparse`, lower-cased; `[]` when the URL has
no scheme.  CPython accepts `url[:i]` (with `i` the index of the first `:`)
as scheme when it is nonempty, starts with a letter and continues with
`scheme_chars`. -/
def urlScheme (s : Url) : Url :=
  let pre := s.takeWhile (fun c => c ≠ ':')
  match pre with
  | [] => []
  | c :: rest =>
    if pre.length < s.length && c.isAlpha && rest.all schemeChar then
      pre.map Char.toLower
    else []

/-- The rest of the URL once a valid `scheme:` marker has been removed
(identity when there is no scheme), per CPython `urlsplit`. -/
def afterScheme (s : Url) : Url :=
  let pre := s.takeWhile (fun c => c ≠ ':')
  match pre with
  | c :: rest =>
    if pre.length < s.length && c.isAlpha && rest.all schemeChar then
      s.drop (pre.length + 1)
    else s
  | [] => s

/-- Delimiters ending the netloc component in `urlsplit`. -/
def netlocDelim (c : Char) : Bool :=
  c == '/' || c == '?' || c == '#'

/-- What remains after removing a leading `//netloc`, per `urlsplit`
(the delimiter itself is kept). -/
def afterNetloc (s : Url) : Url :=
  match s with
  | '/' :: '/' :: rest => rest.dropWhile (fun c => !netlocDelim c)
  | _ => s

/-- The `netloc` component of `urlparse`: present only after `//`,
running to the first `/`, `?` or `#`. -/
def urlNetloc (s : Url) : Url :=
  match afterScheme s with
  | '/' :: '/' :: rest => rest.takeWhile (fun c => !netlocDelim c)
  | _ => []

/-- `urlparse` (unlike `urlsplit`) splits `;params` off the last path
segment (`_splitparams` in CPython). -/
def pathParams (p : Url) : Url :=
  if p.contains ';' then
    if p.contains '/' then
      let seg := (p.reverse.takeWhile (fun c => c ≠ '/')).reverse
      if seg.contains ';' then
        p.take (p.length - seg.length + (seg.takeWhile (fun c => c ≠ ';')).length)
      else p
    else p.takeWhile (fun c => c ≠ ';')
  else p

/-- The `path` component of `urlparse`: what is left of the URL after
scheme, netloc, fragment, query and params are removed. -/
def urlparsePath (s : Url) : Url :=
  pathParams (((afterNetloc (afterScheme s)).takeWhile (fun c => c ≠ '#')).takeWhile
    (fun c => c ≠ '?'))

/-! ## URL Normalizer/Validator (`is_valid_url`, `normalize_url`) -/

/-- `DeadLinkChecker.is_valid_url`: scheme must be http/https, then the
(mailto/tel/javascript/data) and leading-`#` rejections of the source are
replayed verbatim. -/
def is_valid_url (url : Url) : Bool :=
  let scheme := urlScheme url
  if ¬ (scheme = ("http".data) ∨ scheme = ("https".data)) then false
  else if scheme = ("mailto".data) ∨ scheme = ("tel".data) ∨
      scheme = ("javascript".data) ∨ scheme = ("data".data) then false
  else if url.head? = some '#' then false
  else true

/-- Python `url.rstrip(c)` for a single strip character: removes every
trailing occurrence. -/
def rstripSlashes (s : Url) : Url :=
  (s.reverse.dropWhile (fun c => c == '/')).reverse

/-- `DeadLinkChecker.normalize_url`: drop everything from the first `#`
(`url.split('#')[0]`, applied only when a `#` is present), then
`url.rstrip('/')` when the URL ends with `/` and `urlparse(url).path`
is not the root `/`. -/
def normalize_url (url : Url) : Url :=
  let u := if url.contains '#' then url.takeWhile (fun c => c ≠ '#') else url
  if u.getLast? = some '/' ∧ urlparsePath u ≠ ['/'] then rstripSlashes u else u

/-! ## Link Checker (`check_link`) -/

/-- Outcome of one HTTP request as seen by `check_link`: a response with a
status code and an elapsed wall-clock time, or one of the three exception
classes the source catches (`requests.exceptions.Timeout`,
`requests.exceptions.ConnectionError`, any other `Exception` carrying its
`str(e)` message). -/
inductive HttpOutcome where
  | response (status : Nat) (elapsed : ℚ)
  | timeout
  | connectionError
  | otherError (msg : List Char)
deriving DecidableEq

/-- Python `round(x, 2)` on exact rationals: round half to even at two
decimal places. -/
def round2 (q : ℚ) : ℚ :=
  let y := q * 100
  let f := ⌊y⌋
  let n : ℤ :=
    if y - f < 1 / 2 then f
    else if 1 / 2 < y - f then f + 1
    else if f % 2 = 0 then f else f + 1
  (n : ℚ) / 100

/-- The result dictionary built by `check_link`. -/
structure CheckResult where
  url : Url
  status_code : Nat
  response_time : Option ℚ
  source_page : Option Url
  is_broken : Bool
  error : Option (List Char)
  checked_at : Nat
deriving DecidableEq

/-- `DeadLinkChecker.check_link url source_page`: HEAD request first; on a
405 response a GET is issued and its status/timing replace the HEAD's; any
of the three exception classes (raised by either request) produces the
status-0 dictionary of the corresponding `except` block. -/
def check_link (url : Url) (source_page : Option Url) (headOut getOut : HttpOutcome)
    (now : Nat) : CheckResult :=
  match headOut with
  | .response st t =>
    if st = 405 then
      match getOut with
      | .response st2 t2 =>
          ⟨url, st2, some (round2 t2), source_page, decide (st2 ≥ 400), none, now⟩
      | .timeout => ⟨url, 0, none, source_page, true, some ("Timeout".data), now⟩
      | .connectionError =>
          ⟨url, 0, none, source_page, true, some ("Connection Error".data), now⟩
      | .otherError msg => ⟨url, 0, none, source_page, true, some msg, now⟩
    else ⟨url, st, some (round2 t), source_page, decide (st ≥ 400), none, now⟩
  | .timeout => ⟨url, 0, none, source_page, true, some ("Timeout".data), now⟩
  | .connectionError =>
      ⟨url, 0, none, source_page, true, some ("Connection Error".data), now⟩
  | .otherError msg => ⟨url, 0, none, source_page, true, some msg, now⟩

/-! ## Crawl Engine (`scan_page`) -/

/-- Configuration and environment of one `DeadLinkChecker` instance:
`base_url` and `domain` as stored by `__init__` (`base_url.rstrip('/')` and
`urlparse(base_url).netloc`), the configured `max_depth`, and the external
world: `extract` is the value `extract_links` returns for each page and
`headOut`/`getOut`/`now` drive `check_link` (see module docstring). -/
structure CrawlEnv where
  base_url : Url
  domain : Url
  max_depth : Nat
  extract : Url → List Url
  headOut : Url → HttpOutcome
  getOut : Url → HttpOutcome
  now : Nat

/-- The mutable crawl state owned by `DeadLinkChecker`: `visited_urls` (a
Python `set`, embedded as its insertion-ordered list of distinct elements),
the two result collections, and `link_map` (a Python `dict`, embedded as an
insertion-ordered association list). -/
structure Session where
  visited_urls : List Url
  broken_links : List CheckResult
  valid_links : List CheckResult
  link_map : List (Url × List Url)
deriving DecidableEq

/-- Python `set.add`: no effect when the element is present, otherwise the
element is inserted (at the end, in the insertion-order view). -/
def setAdd (s : List Url) (x : Url) : List Url :=
  if x ∈ s then s else s ++ [x]

/-- One iteration of the `link_map` loop of `scan_page`: ensure `link` has
an entry, and append `url` to it when not already present. -/
def addProvenance (m : List (Url × List Url)) (link url : Url) : List (Url × List Url) :=
  match m with
  | [] => [(link, [url])]
  | (k, srcs) :: rest =>
    if k = link then (k, if url ∈ srcs then srcs else srcs ++ [url]) :: rest
    else (k, srcs) :: addProvenance rest link url

/-- `DeadLinkChecker.is_same_domain`: `urlparse(url).netloc == self.domain`. -/
def is_same_domain (env : CrawlEnv) (url : Url) : Bool :=
  urlNetloc url == env.domain

/-- The partition loop of `scan_page`: first component is `links_to_check`
(pairs `(link, url)`), second is `internal_links`.  External links are
always queued; internal links are queued only when not in `visited`. -/
def partitionLinks (env : CrawlEnv) (visited : List Url) (url : Url) (links : List Url) :
    List (Url × Url) × List Url :=
  links.foldl
    (fun acc link =>
      if is_same_domain env link = false then (acc.1 ++ [(link, url)], acc.2)
      else
        (if link ∈ visited then acc.1 else acc.1 ++ [(link, url)], acc.2 ++ [link]))
    ([], [])

/-- The Python expression `source_page or url`: `url` when `source_page` is
`None` or the empty string, `source_page` otherwise. -/
def orElseUrl (source_page : Option Url) (url : Url) : Url :=
  match source_page with
  | none => url
  | some p => if p = [] then url else p

/-- The check fan-out of `scan_page`: each queued link is checked via
`check_link link (source_page or url)` and the result is appended to
`broken_links` or `valid_links` according to `is_broken`.  The source
collects results in completion order of a thread pool; completion order is
scheduling-dependent, and the embedding fixes submission order (no claim
under verification depends on the order of the two result collections). -/
def dispatchChecks (env : CrawlEnv) (src : Url) (pairs : List (Url × Url))
    (s : Session) : Session :=
  pairs.foldl
    (fun acc p =>
      let result := check_link p.1 (some src) (env.headOut p.1) (env.getOut p.1) env.now
      if result.is_broken then { acc with broken_links := acc.broken_links ++ [result] }
      else { acc with valid_links := acc.valid_links ++ [result] })
    s

/-- `DeadLinkChecker.scan_page`, with an explicit fuel argument making the
recursion structural.  The body replays the source line by line: depth
guard, visited guard, mark visited, extract, provenance loop, partition,
concurrent checks, and (when `depth < max_depth`) sequential recursion into
unvisited internal links.  The `0` fuel branch is unreachable from
`scan_page` below: fuel `max_depth + 1 - depth` is positive and at least
`2` whenever `depth < max_depth` allows recursion. -/
def scan_page_aux (env : CrawlEnv) (gas : Nat) (url : Url) (depth : Nat)
    (source_page : Option Url) (s : Session) : Session :=
  if env.max_depth < depth then s
  else if url ∈ s.visited_urls then s
  else
    let s1 : Session := { s with visited_urls := setAdd s.visited_urls url }
    let links := env.extract url
    let s2 : Session :=
      { s1 with link_map := links.foldl (fun m link => addProvenance m link url) s1.link_map }
    let pc := partitionLinks env s2.visited_urls url links
    let s3 := dispatchChecks env (orElseUrl source_page url) pc.1 s2
    if depth < env.max_depth then
      match gas with
      | 0 => s3
      | gas' + 1 =>
        pc.2.foldl
          (fun acc link =>
            if link ∈ acc.visited_urls then acc
            else scan_page_aux env gas' link (depth + 1) (some url) acc)
          s3
    else s3

/-- `DeadLinkChecker.scan_page` proper (default arguments `depth = 0`,
`source_page = None` are passed explicitly by callers of the embedding). -/
def scan_page (env : CrawlEnv) (url : Url) (depth : Nat) (source_page : Option Url)
    (s : Session) : Session :=
  scan_page_aux env (env.max_depth + 1 - depth) url depth source_page s

/-! ## Report Aggregator (`generate_report`) -/

/-- One iteration of the `broken_by_status` loop:
`broken_by_status[status] = broken_by_status.get(status, 0) + 1` on an
insertion-ordered association list. -/
def bumpStatus (m : List (Nat × Nat)) (st : Nat) : List (Nat × Nat) :=
  match m with
  | [] => [(st, 1)]
  | (k, v) :: rest =>
    if k = st then (k, v + 1) :: rest
    else (k, v) :: bumpStatus rest st

/-- The report dictionary built by `generate_report`. -/
structure Report where
  scan_date : Nat
  base_url : Url
  total_pages_scanned : Nat
  total_links_checked : Nat
  broken_links_count : Nat
  valid_links_count : Nat
  broken_percentage : ℚ
  broken_by_status : List (Nat × Nat)
  broken_links : List CheckResult
  valid_links : List CheckResult

/-- `DeadLinkChecker.generate_report`; `now` is the `datetime.now()`
reading taken during the call. -/
def generate_report (env : CrawlEnv) (s : Session) (now : Nat) : Report :=
  let total_links := s.broken_links.length + s.valid_links.length
  let broken_count := s.broken_links.length
  let valid_count := s.valid_links.length
  let grouped := s.broken_links.foldl (fun m l => bumpStatus m l.status_code) []
  { scan_date := now
    base_url := env.base_url
    total_pages_scanned := s.visited_urls.length
    total_links_checked := total_links
    broken_links_count := broken_count
    valid_links_count := valid_count
    broken_percentage :=
      round2 (if 0 < total_links then (broken_count : ℚ) / (total_links : ℚ) * 100 else 0)
    broken_by_status := grouped
    broken_links := s.broken_links
    valid_links := s.valid_links }

/-! ## Observation helpers used to state the claims -/

/-- Lookup in an insertion-ordered association list with `Nat` keys. -/
def lookupStatus (m : List (Nat × Nat)) (st : Nat) : Option Nat :=
  match m with
  | [] => none
  | (k, v) :: rest => if k = st then some v else lookupStatus rest st

/-- Lookup in the embedded `link_map`. -/
def lookupProv (m : List (Url × List Url)) (link : Url) : Option (List Url) :=
  match m with
  | [] => none
  | (k, srcs) :: rest => if k = link then some srcs else lookupProv rest link

/-- Sum of the multiplicities recorded in a `broken_by_status` table. -/
def countsTotal (m : List (Nat × Nat)) : Nat :=
  (m.map Prod.snd).sum

/-- All fields of a report other than `scan_date`, for stating that two
reports agree up to the timestamp. -/
def reportSansDate (r : Report) :
    Url × Nat × Nat × Nat × Nat × ℚ × List (Nat × Nat) × List CheckResult × List CheckResult :=
  (r.base_url, r.total_pages_scanned, r.total_links_checked, r.broken_links_count,
    r.valid_links_count, r.broken_percentage, r.broken_by_status, r.broken_links,
    r.valid_links)

/-- Claim C3 reading of the normalizer, following the claim words: strip
the fragment, then strip ONE trailing `/` unless the path is the root `/`.
Used only to exhibit where the claim and the code part ways. -/
def normalizeClaimC3 (u : Url) : Url :=
  let v := u.takeWhile (fun c => c ≠ '#')
  if v.getLast? = some '/' ∧ urlparsePath v ≠ ['/'] then v.dropLast else v

/-- The amended normalization, following the amended claim words: strip
any fragment (everything from the first `#`), then strip ALL trailing `/`
characters unless the path of the fragment-stripped URL is the root `/`. -/
def normalizeAmended (u : Url) : Url :=
  let v := u.takeWhile (fun c => c ≠ '#')
  if urlparsePath v = ['/'] then v
  else if v.getLast? = some '/' then rstripSlashes v else v

/-- The multiplicity a `broken_by_status` table records for a status
(`0` when the status has no entry). -/
def valAt (m : List (Nat × Nat)) (st : Nat) : Nat :=
  (lookupStatus m st).getD 0

/-! ## Concrete fixtures used by counterexamples and witnesses -/

/-- Three URLs on one test domain. -/
def siteRoot : Url := "http://site.test".data

def siteA : Url := "http://site.test/a".data

def siteB : Url := "http://site.test/b".data

/-- A two-level site: the root links to `/a`, `/a` links to `/b`; every
check gets an immediate 200 response; `max_depth = 1`. -/
def env1 : CrawlEnv :=
  { base_url := siteRoot
    domain := "site.test".data
    max_depth := 1
    extract := fun u => if u = siteRoot then [siteA] else if u = siteA then [siteB] else []
    headOut := fun _ => .response 200 0
    getOut := fun _ => .response 200 0
    now := 7 }

/-- A site whose root page links to itself. -/
def env2 : CrawlEnv :=
  { env1 with extract := fun u => if u = siteRoot then [siteRoot] else [] }

/-- The state right after `__init__`. -/
def emptySession : Session := ⟨[], [], [], []⟩

/-- A session holding one broken and one valid check result, as
accumulated by a crawl that visited one page. -/
def sessionR : Session :=
  ⟨[siteRoot],
   [⟨siteA, 404, none, some siteRoot, true, none, 7⟩],
   [⟨siteB, 200, none, some siteRoot, false, none, 7⟩],
   [(siteA, [siteRoot]), (siteB, [siteRoot])]⟩

/-! ## Lemmas: the visited set under `scan_page` -/

theorem foldl_visited_eq {α : Type} (f : Session → α → Session)
    (hf : ∀ acc x, (f acc x).visited_urls = acc.visited_urls) :
    ∀ (ls : List α) (s : Session), (ls.foldl f s).visited_urls = s.visited_urls := by
  intro ls
  induction ls with
  | nil => intro s; rfl
  | cons x rest ih => intro s; rw [List.foldl_cons, ih, hf]

theorem dispatchChecks_visited (env : CrawlEnv) (src : Url) (pairs : List (Url × Url))
    (s : Session) : (dispatchChecks env src pairs s).visited_urls = s.visited_urls := by
  refine foldl_visited_eq _ ?_ pairs s
  intro acc x
  dsimp only
  split <;> rfl

theorem subset_setAdd (s : List Url) (x : Url) : s ⊆ setAdd s x := by
  unfold setAdd
  split
  · exact List.Subset.refl _
  · exact List.subset_append_left _ _

theorem mem_setAdd {s : List Url} {x a : Url} : a ∈ setAdd s x ↔ a ∈ s ∨ a = x := by
  unfold setAdd
  split
  · exact ⟨Or.inl, fun h => h.elim id (fun e => by rename_i hx; exact e ▸ hx)⟩
  · simp [List.mem_append]

theorem nodup_setAdd {s : List Url} {x : Url} (h : s.Nodup) : (setAdd s x).Nodup := by
  unfold setAdd
  split
  · exact h
  · rename_i hx
    simp [List.nodup_append, h, hx]

theorem foldl_visited_subset {α : Type} (f : Session → α → Session)
    (hf : ∀ acc x, acc.visited_urls ⊆ (f acc x).visited_urls) :
    ∀ (ls : List α) (s : Session), s.visited_urls ⊆ (ls.foldl f s).visited_urls := by
  intro ls
  induction ls with
  | nil => intro s; exact List.Subset.refl _
  | cons x rest ih =>
    intro s
    rw [List.foldl_cons]
    exact List.Subset.trans (hf s x) (ih (f s x))

theorem foldl_visited_nodup {α : Type} (f : Session → α → Session)
    (hf : ∀ acc x, acc.visited_urls.Nodup → (f acc x).visited_urls.Nodup) :
    ∀ (ls : List α) (s : Session), s.visited_urls.Nodup → (ls.foldl f s).visited_urls.Nodup := by
  intro ls
  induction ls with
  | nil => intro s h; exact h
  | cons x rest ih =>
    intro s h
    rw [List.foldl_cons]
    exact ih (f s x) (hf s x h)

theorem scan_page_aux_visited_subset (env : CrawlEnv) :
    ∀ (gas : Nat) (url : Url) (depth : Nat) (sp : Option Url) (s : Session),
      s.visited_urls ⊆ (scan_page_aux env gas url depth sp s).visited_urls := by
  intro gas
  induction gas with
  | zero =>
    intro url depth sp s
    rw [scan_page_aux]
    by_cases h1 : env.max_depth < depth
    · simp only [if_pos h1]; exact List.Subset.refl _
    simp only [if_neg h1]
    by_cases h2 : url ∈ s.visited_urls
    · simp only [if_pos h2]; exact List.Subset.refl _
    simp only [if_neg h2]
    by_cases h3 : depth < env.max_depth <;>
      simp only [if_pos, if_neg, h3, if_true, if_false, dispatchChecks_visited] <;>
      exact subset_setAdd _ _
  | succ g ih =>
    intro url depth sp s
    rw [scan_page_aux]
    by_cases h1 : env.max_depth < depth
    · simp only [if_pos h1]; exact List.Subset.refl _
    simp only [if_neg h1]
    by_cases h2 : url ∈ s.visited_urls
    · simp only [if_pos h2]; exact List.Subset.refl _
    simp only [if_neg h2]
    by_cases h3 : depth < env.max_depth
    · simp only [if_pos h3]
      have hstep : ∀ (acc : Session) (link : Url),
          acc.visited_urls ⊆ (if link ∈ acc.visited_urls then acc
            else scan_page_aux env g link (depth + 1) (some url) acc).visited_urls := by
        intro acc link
        split
        · exact List.Subset.refl _
        · exact ih link (depth + 1) (some url) acc
      refine List.Subset.trans ?_ (foldl_visited_subset _ hstep _ _)
      rw [dispatchChecks_visited]
      exact subset_setAdd _ _
    · simp only [if_neg h3, dispatchChecks_visited]
      exact subset_setAdd _ _

theorem scan_page_aux_visited_nodup (env : CrawlEnv) :
    ∀ (gas : Nat) (url : Url) (depth : Nat) (sp : Option Url) (s : Session),
      s.visited_urls.Nodup → (scan_page_aux env gas url depth sp s).visited_urls.Nodup := by
  intro gas
  induction gas with
  | zero =>
    intro url depth sp s h
    rw [scan_page_aux]
    by_cases h1 : env.max_depth < depth
    · simpa only [if_pos h1] using h
    simp only [if_neg h1]
    by_cases h2 : url ∈ s.visited_urls
    · simpa only [if_pos h2] using h
    simp only [if_neg h2]
    by_cases h3 : depth < env.max_depth <;>
      simp only [if_pos, if_neg, h3, if_true, if_false, dispatchChecks_visited] <;>
      exact nodup_setAdd h
  | succ g ih =>
    intro url depth sp s h
    rw [scan_page_aux]
    by_cases h1 : env.max_depth < depth
    · simpa only [if_pos h1] using h
    simp only [if_neg h1]
    by_cases h2 : url ∈ s.visited_urls
    · simpa only [if_pos h2] using h
    simp only [if_neg h2]
    by_cases h3 : depth < env.max_depth
    · simp only [if_pos h3]
      have hstep : ∀ (acc : Session) (link : Url),
          acc.visited_urls.Nodup → (if link ∈ acc.visited_urls then acc
            else scan_page_aux env g link (depth + 1) (some url) acc).visited_urls.Nodup := by
        intro acc link hacc
        split
        · exact hacc
        · exact ih link (depth + 1) (some url) acc hacc
      refine foldl_visited_nodup _ hstep _ _ ?_
      rw [dispatchChecks_visited]
      exact nodup_setAdd h
    · simp only [if_neg h3, dispatchChecks_visited]
      exact nodup_setAdd h

theorem partitionLinks_fst_eq (env : CrawlEnv) (visited : List Url) (url : Url) :
    ∀ links : List Url,
      (partitionLinks env visited url links).1 =
        (links.filter (fun l => !(is_same_domain env l) || !(decide (l ∈ visited)))).map
          (fun l => (l, url)) := by
  have aux : ∀ (ls : List Url) (acc : List (Url × Url) × List Url),
      (ls.foldl (fun acc l =>
          if is_same_domain env l = false then (acc.1 ++ [(l, url)], acc.2)
          else (if l ∈ visited then acc.1 else acc.1 ++ [(l, url)], acc.2 ++ [l])) acc).1 =
        acc.1 ++ (ls.filter (fun l => !(is_same_domain env l) || !(decide (l ∈ visited)))).map
          (fun l => (l, url)) := by
    intro ls
    induction ls with
    | nil => intro acc; simp
    | cons l rest ih =>
      intro acc
      rw [List.foldl_cons]
      by_cases hd : is_same_domain env l = false
      · rw [if_pos hd, ih]
        simp [List.filter_cons, hd]
      · have ht : is_same_domain env l = true := by
          revert hd; cases is_same_domain env l <;> simp
        by_cases hv : l ∈ visited
        · rw [if_neg hd, if_pos hv, ih]
          simp [List.filter_cons, ht, hv]
        · rw [if_neg hd, if_neg hv, ih]
          simp [List.filter_cons, ht, hv]
  intro links
  exact aux links ([], [])

theorem partitionLinks_fst_mem (env : CrawlEnv) (visited : List Url) (url : Url)
    (links : List Url) (link : Url) :
    ((link, url) ∈ (partitionLinks env visited url links).1 ↔
      link ∈ links ∧ (is_same_domain env link = false ∨ link ∉ visited)) := by
  rw [partitionLinks_fst_eq]
  simp [List.mem_map, List.mem_filter, Bool.or_eq_true, Bool.not_eq_true',
    decide_eq_false_iff_not, and_comm]

/-! ## Claim theorems C1, C2, C7 -/

/-- C1 (code bug witness): on the two-level site of `env1`, the link
`siteB` is discovered on page `siteA` (as `link_map` itself records), yet
the `CheckResult` produced for `siteB` records `siteRoot` — the page that
linked to `siteA` — as its `source_page`, because `scan_page` passes
`source_page or url` instead of `url` to `check_link`.  The claim (every
dispatched link's result records the page on which it was found) holds at
depth 0 but fails at every deeper recursion level. -/
theorem scan_page_source_page_mismatch :
    ((scan_page env1 siteRoot 0 none emptySession).valid_links.map
        (fun r => (r.url, r.source_page))) =
      [(siteA, some siteRoot), (siteB, some siteRoot)]
    ∧ lookupProv (scan_page env1 siteRoot 0 none emptySession).link_map siteB = some [siteA]
    ∧ siteA ≠ siteRoot :=
  ⟨by decide, by decide, by decide⟩

/-- C2 (counterexample): on the site of `env2` the root page links to the
root itself; the self-link is a discovered link that is a member of the
VisitedSet when the check queue is built, and no check is dispatched for
it — VisitedSet membership does suppress checking of internal links. -/
theorem visited_suppresses_internal_check :
    env2.extract siteRoot = [siteRoot]
    ∧ (scan_page env2 siteRoot 0 none emptySession).valid_links = []
    ∧ (scan_page env2 siteRoot 0 none emptySession).broken_links = [] :=
  ⟨by decide, by decide, by decide⟩

/-- C2 (amended): a discovered link is dispatched for checking iff it is
external, or internal and not yet in the VisitedSet at partition time
(membership suppresses re-checking of internal links only); the VisitedSet
grows monotonically under `scan_page`, and each URL enters at most once
(distinctness of its insertion-ordered view is preserved). -/
theorem visited_set_gating_amended :
    (∀ (env : CrawlEnv) (visited : List Url) (url : Url) (links : List Url) (link : Url),
      ((link, url) ∈ (partitionLinks env visited url links).1 ↔
        link ∈ links ∧ (is_same_domain env link = false ∨ link ∉ visited)))
    ∧ (∀ (env : CrawlEnv) (url : Url) (depth : Nat) (sp : Option Url) (s : Session),
        s.visited_urls ⊆ (scan_page env url depth sp s).visited_urls)
    ∧ (∀ (env : CrawlEnv) (url : Url) (depth : Nat) (sp : Option Url) (s : Session),
        s.visited_urls.Nodup → (scan_page env url depth sp s).visited_urls.Nodup) :=
  ⟨fun env visited url links link => partitionLinks_fst_mem env visited url links link,
   fun env url depth sp s => scan_page_aux_visited_subset env _ url depth sp s,
   fun env url depth sp s h => scan_page_aux_visited_nodup env _ url depth sp s h⟩

/-- C2 (witness for the amended theorem): concrete crawl discharging the
`Nodup` hypothesis. -/
theorem visited_set_gating_amended_witness :
    (scan_page env1 siteRoot 0 none emptySession).visited_urls.Nodup :=
  visited_set_gating_amended.2.2 env1 siteRoot 0 none emptySession (by decide)

/-- C7: `scan_page` invoked with `depth > max_depth` returns the session
unchanged (no extraction, no side effects), and a page scanned at
`depth = max_depth` initiates no recursion — the only URL that can enter
the VisitedSet during such a call is that page itself, so no URL first
reached at `depth = max_depth + 1` is ever extracted. -/
theorem scan_page_depth_bound :
    ∀ (env : CrawlEnv) (url : Url) (depth : Nat) (sp : Option Url) (s : Session),
      (env.max_depth < depth → scan_page env url depth sp s = s)
      ∧ (∀ v, v ∈ (scan_page env url env.max_depth sp s).visited_urls →
          v ∈ s.visited_urls ∨ v = url) := by
  intro env url depth sp s
  constructor
  · intro h
    rw [scan_page, scan_page_aux]
    simp only [if_pos h]
  · intro v hv
    have h1 : ¬ (env.max_depth < env.max_depth) := lt_irrefl _
    rw [scan_page, scan_page_aux] at hv
    rw [if_neg h1] at hv
    by_cases h2 : url ∈ s.visited_urls
    · rw [if_pos h2] at hv
      exact Or.inl hv
    · simp only [if_neg h2, if_neg h1, dispatchChecks_visited] at hv
      exact mem_setAdd.mp hv

/-- C7 (witness): with `max_depth = 1`, a call at depth 2 is the identity,
and a call at depth `max_depth` can add only the page itself. -/
theorem scan_page_depth_bound_witness :
    scan_page env1 siteRoot 2 none emptySession = emptySession
    ∧ (siteRoot ∈ emptySession.visited_urls ∨ siteRoot = siteRoot) :=
  ⟨(scan_page_depth_bound env1 siteRoot 2 none emptySession).1 (by decide),
   (scan_page_depth_bound env1 siteRoot 2 none emptySession).2 siteRoot (by decide)⟩

/-! ## Lemmas: the normalizer -/

theorem rstripSlashes_subset (s : Url) : rstripSlashes s ⊆ s := by
  intro a ha
  unfold rstripSlashes at ha
  rw [List.mem_reverse] at ha
  exact List.mem_reverse.mp (List.dropWhile_subset _ ha)

theorem rstripSlashes_getLast_ne (s : Url) : (rstripSlashes s).getLast? ≠ some '/' := by
  unfold rstripSlashes
  rw [List.getLast?_reverse]
  intro h
  have h2 := List.head?_dropWhile_not (fun c => c == '/') s.reverse
  rw [h] at h2
  simp at h2

theorem contains_eq_false_of_not_mem {w : Url} {c : Char} (h : c ∉ w) :
    w.contains c = false := by
  cases hc : w.contains c
  · rfl
  · exact absurd (by simpa [List.contains, List.elem_iff] using hc) h

theorem hash_not_mem_pre (u : Url) :
    '#' ∉ (if u.contains '#' then u.takeWhile (fun c => c ≠ '#') else u) := by
  split
  · intro h
    have := List.mem_takeWhile_imp h
    simp at this
  · rename_i h
    intro hm
    exact h (by simpa [List.contains, List.elem_iff] using hm)

theorem hash_not_mem_normalize (u : Url) : '#' ∉ normalize_url u := by
  have hpre := hash_not_mem_pre u
  set v := if u.contains '#' then u.takeWhile (fun c => c ≠ '#') else u with hv
  have heq : normalize_url u =
      if v.getLast? = some '/' ∧ urlparsePath v ≠ ['/'] then rstripSlashes v else v := rfl
  rw [heq]
  split
  · intro h
    exact hpre (rstripSlashes_subset _ h)
  · exact hpre

theorem normalize_url_of_hashfree {w : Url} (hc : w.contains '#' = false) :
    normalize_url w =
      if w.getLast? = some '/' ∧ urlparsePath w ≠ ['/'] then rstripSlashes w else w := by
  unfold normalize_url
  rw [hc]
  simp

theorem normalize_url_idem_all (u : Url) :
    normalize_url (normalize_url u) = normalize_url u := by
  have hc : (normalize_url u).contains '#' = false :=
    contains_eq_false_of_not_mem (hash_not_mem_normalize u)
  rw [normalize_url_of_hashfree hc]
  have heq : normalize_url u =
      (if (if u.contains '#' then u.takeWhile (fun c => c ≠ '#') else u).getLast? = some '/' ∧
          urlparsePath (if u.contains '#' then u.takeWhile (fun c => c ≠ '#') else u) ≠ ['/'] then
        rstripSlashes (if u.contains '#' then u.takeWhile (fun c => c ≠ '#') else u)
      else (if u.contains '#' then u.takeWhile (fun c => c ≠ '#') else u)) := rfl
  by_cases h1 : (if u.contains '#' then u.takeWhile (fun c => c ≠ '#') else u).getLast? = some '/' ∧
      urlparsePath (if u.contains '#' then u.takeWhile (fun c => c ≠ '#') else u) ≠ ['/']
  · rw [heq, if_pos h1, if_neg]
    intro hcontra
    exact rstripSlashes_getLast_ne _ hcontra.1
  · rw [heq, if_neg h1, if_neg h1]

theorem normalize_url_eq_amended_all (u : Url) : normalize_url u = normalizeAmended u := by
  unfold normalize_url normalizeAmended
  have hv : (if u.contains '#' then u.takeWhile (fun c => c ≠ '#') else u)
      = u.takeWhile (fun c => c ≠ '#') := by
    split
    · rfl
    · rename_i h
      refine (List.takeWhile_eq_self_iff.mpr ?_).symm
      intro x hx
      simp only [decide_eq_true_eq]
      intro hEq
      subst hEq
      exact h (by simpa [List.contains, List.elem_iff] using hx)
  rw [hv]
  by_cases hp : urlparsePath (u.takeWhile (fun c => c ≠ '#')) = ['/']
  · rw [if_pos hp, if_neg (fun h => h.2 hp)]
  · by_cases hl : (u.takeWhile (fun c => c ≠ '#')).getLast? = some '/'
    · rw [if_neg hp, if_pos hl, if_pos ⟨hl, hp⟩]
    · rw [if_neg hp, if_neg hl, if_neg (fun h => hl h.1)]

/-! ## Claim theorems C3, C9 -/

/-- C3 (counterexample): on `https://example.com/path//` the code strips
BOTH trailing slashes (`url.rstrip('/')` removes every trailing `/`),
while the claim's "strips one trailing `/`" reading would leave
`https://example.com/path/`. -/
theorem normalize_single_slash_cex :
    normalize_url ("https://example.com/path//".data) = ("https://example.com/path".data)
    ∧ normalizeClaimC3 ("https://example.com/path//".data) = ("https://example.com/path/".data)
    ∧ normalize_url ("https://example.com/path//".data) ≠
        normalizeClaimC3 ("https://example.com/path//".data) :=
  ⟨by decide, by decide, by decide⟩

/-- C3 (amended): `normalize_url` strips any fragment (everything from the
first `#`) and strips ALL trailing `/` characters unless the path of the
fragment-stripped URL is the root `/`; the two concrete examples of the
claim hold as stated. -/
theorem normalize_url_amended :
    (∀ u : Url, normalize_url u = normalizeAmended u)
    ∧ normalize_url ("https://example.com/path/#section".data) = ("https://example.com/path".data)
    ∧ normalize_url ("https://example.com/".data) = ("https://example.com/".data) :=
  ⟨normalize_url_eq_amended_all, by decide, by decide⟩

/-- C9: `normalize_url` is idempotent on every eligible URL (it is in fact
idempotent on every URL string). -/
theorem normalize_url_idempotent :
    ∀ u : Url, is_valid_url u = true →
      normalize_url (normalize_url u) = normalize_url u :=
  fun u _ => normalize_url_idem_all u

/-- C9 (witness): idempotence at a concrete eligible URL. -/
theorem normalize_url_idempotent_witness :
    normalize_url (normalize_url ("https://example.com/path/".data)) =
      normalize_url ("https://example.com/path/".data) :=
  normalize_url_idempotent ("https://example.com/path/".data) (by decide)

/-! ## Lemmas: the validator -/

theorem is_valid_url_iff (u : Url) :
    is_valid_url u = true ↔
      ((urlScheme u = ("http".data) ∨ urlScheme u = ("https".data)) ∧ u.head? ≠ some '#') := by
  unfold is_valid_url
  by_cases hs : urlScheme u = ("http".data) ∨ urlScheme u = ("https".data)
  · rw [if_neg (not_not_intro hs)]
    have hnm : ¬ (urlScheme u = ("mailto".data) ∨ urlScheme u = ("tel".data) ∨
        urlScheme u = ("javascript".data) ∨ urlScheme u = ("data".data)) := by
      rcases hs with h | h <;> rw [h] <;> decide
    rw [if_neg hnm]
    by_cases hh : u.head? = some '#'
    · rw [if_pos hh]
      simp [hs, hh]
    · rw [if_neg hh]
      simp [hs, hh]
  · rw [if_pos hs]
    simp [hs]

theorem urlScheme_http_append (rest : Url) :
    urlScheme (("http://".data) ++ rest) = ("http".data) := by
  show urlScheme ('h' :: 't' :: 't' :: 'p' :: ':' :: '/' :: '/' :: rest) = ("http".data)
  have hpre : ('h' :: 't' :: 't' :: 'p' :: ':' :: '/' :: '/' :: rest).takeWhile
      (fun c => c ≠ ':') = ['h', 't', 't', 'p'] := rfl
  unfold urlScheme
  rw [hpre]
  have hlen : (4 : Nat) < ('h' :: 't' :: 't' :: 'p' :: ':' :: '/' :: '/' :: rest).length := by
    simp [List.length_cons]
  have hd : decide ((['h', 't', 't', 'p'] : List Char).length <
      ('h' :: 't' :: 't' :: 'p' :: ':' :: '/' :: '/' :: rest).length) = true :=
    decide_eq_true hlen
  simp only [hd, Bool.true_and, Bool.and_true]
  rfl

theorem urlScheme_https_append (rest : Url) :
    urlScheme (("https://".data) ++ rest) = ("https".data) := by
  show urlScheme ('h' :: 't' :: 't' :: 'p' :: 's' :: ':' :: '/' :: '/' :: rest) = ("https".data)
  have hpre : ('h' :: 't' :: 't' :: 'p' :: 's' :: ':' :: '/' :: '/' :: rest).takeWhile
      (fun c => c ≠ ':') = ['h', 't', 't', 'p', 's'] := rfl
  unfold urlScheme
  rw [hpre]
  have hlen : (5 : Nat) <
      ('h' :: 't' :: 't' :: 'p' :: 's' :: ':' :: '/' :: '/' :: rest).length := by
    simp [List.length_cons]
  have hd : decide ((['h', 't', 't', 'p', 's'] : List Char).length <
      ('h' :: 't' :: 't' :: 'p' :: 's' :: ':' :: '/' :: '/' :: rest).length) = true :=
    decide_eq_true hlen
  simp only [hd, Bool.true_and, Bool.and_true]
  rfl

/-! ## Claim theorem C8 -/

/-- C8: `is_valid_url u` is true iff the `urlparse` scheme of `u` is
`http` or `https` and `u` does not start with `#`; in particular every URL
with scheme `mailto`, `tel`, `javascript` or `data` and every string
starting with `#` is ineligible, and every URL of the form `http://...` or
`https://...` is eligible (such URLs never start with `#`). -/
theorem is_valid_url_spec :
    (∀ u : Url, is_valid_url u = true ↔
      ((urlScheme u = ("http".data) ∨ urlScheme u = ("https".data)) ∧ u.head? ≠ some '#'))
    ∧ (∀ u : Url,
        (urlScheme u = ("mailto".data) ∨ urlScheme u = ("tel".data) ∨
         urlScheme u = ("javascript".data) ∨ urlScheme u = ("data".data)) →
        is_valid_url u = false)
    ∧ (∀ u : Url, u.head? = some '#' → is_valid_url u = false)
    ∧ (∀ rest : Url, is_valid_url (("http://".data) ++ rest) = true ∧
        is_valid_url (("https://".data) ++ rest) = true) := by
  refine ⟨is_valid_url_iff, ?_, ?_, ?_⟩
  · intro u h
    cases hval : is_valid_url u with
    | false => rfl
    | true =>
      have hsch := ((is_valid_url_iff u).mp hval).1
      rcases h with h | h | h | h <;> rcases hsch with h2 | h2 <;> rw [h] at h2 <;>
        exact absurd h2 (by decide)
  · intro u h
    cases hval : is_valid_url u with
    | false => rfl
    | true => exact absurd h ((is_valid_url_iff u).mp hval).2
  · intro rest
    constructor
    · refine (is_valid_url_iff _).mpr ⟨Or.inl (urlScheme_http_append rest), ?_⟩
      intro hh
      have hhead : (("http://".data) ++ rest).head? = some 'h' := rfl
      rw [hhead] at hh
      exact absurd hh (by decide)
    · refine (is_valid_url_iff _).mpr ⟨Or.inr (urlScheme_https_append rest), ?_⟩
      intro hh
      have hhead : (("https://".data) ++ rest).head? = some 'h' := rfl
      rw [hhead] at hh
      exact absurd hh (by decide)

/-- C8 (witness): the iff and the rejection clauses at concrete URLs. -/
theorem is_valid_url_spec_witness :
    is_valid_url ("mailto:hello@example.com".data) = false
    ∧ is_valid_url ("#local".data) = false
    ∧ is_valid_url ("https://example.com/page".data) = true :=
  ⟨is_valid_url_spec.2.1 ("mailto:hello@example.com".data) (Or.inl (by decide)),
   is_valid_url_spec.2.2.1 ("#local".data) (by decide),
   (is_valid_url_spec.1 ("https://example.com/page".data)).mpr
     ⟨Or.inr (by decide), by decide⟩⟩

/-! ## Lemmas: the report aggregator -/

theorem lookupStatus_bump_same (m : List (Nat × Nat)) (st : Nat) :
    lookupStatus (bumpStatus m st) st = some (valAt m st + 1) := by
  induction m with
  | nil => simp [bumpStatus, lookupStatus, valAt]
  | cons p rest ih =>
    obtain ⟨k, v⟩ := p
    by_cases h : k = st
    · subst h
      simp [bumpStatus, lookupStatus, valAt]
    · simp [bumpStatus, lookupStatus, h, ih, valAt]

theorem lookupStatus_bump_other {m : List (Nat × Nat)} {st k : Nat} (h : k ≠ st) :
    lookupStatus (bumpStatus m st) k = lookupStatus m k := by
  induction m with
  | nil => simp [bumpStatus, lookupStatus, Ne.symm h]
  | cons p rest ih =>
    obtain ⟨a, v⟩ := p
    by_cases ha : a = st
    · subst ha
      have hak : ¬ a = k := fun hb => h hb.symm
      simp [bumpStatus, lookupStatus, hak]
    · simp [bumpStatus, lookupStatus, ha, ih]

theorem countsTotal_bump (m : List (Nat × Nat)) (st : Nat) :
    countsTotal (bumpStatus m st) = countsTotal m + 1 := by
  induction m with
  | nil => simp [bumpStatus, countsTotal]
  | cons p rest ih =>
    obtain ⟨a, v⟩ := p
    by_cases ha : a = st
    · subst ha
      simp [bumpStatus, countsTotal]
      omega
    · simp [bumpStatus, countsTotal, ha] at ih ⊢
      omega

theorem bump_pos {m : List (Nat × Nat)} {st : Nat} (h : ∀ p ∈ m, 0 < p.2) :
    ∀ p ∈ bumpStatus m st, 0 < p.2 := by
  induction m with
  | nil =>
    intro p hp
    simp [bumpStatus] at hp
    simp [hp]
  | cons q rest ih =>
    obtain ⟨a, v⟩ := q
    intro p hp
    by_cases ha : a = st
    · subst ha
      simp [bumpStatus] at hp
      rcases hp with hp | hp
      · simp [hp]
      · exact h p (List.mem_cons_of_mem _ hp)
    · simp [bumpStatus, ha] at hp
      rcases hp with hp | hp
      · subst hp
        exact h (a, v) (List.mem_cons_self _ _)
      · exact ih (fun q hq => h q (List.mem_cons_of_mem _ hq)) p hp

theorem mem_of_lookupStatus {m : List (Nat × Nat)} {st c : Nat}
    (h : lookupStatus m st = some c) : (st, c) ∈ m := by
  induction m with
  | nil => simp [lookupStatus] at h
  | cons p rest ih =>
    obtain ⟨a, v⟩ := p
    by_cases ha : a = st
    · subst ha
      simp [lookupStatus] at h
      simp [h]
    · simp [lookupStatus, ha] at h
      exact List.mem_cons_of_mem _ (ih h)

theorem statusFold_valAt (ls : List CheckResult) :
    ∀ (m : List (Nat × Nat)) (st : Nat),
      valAt (ls.foldl (fun m l => bumpStatus m l.status_code) m) st =
        valAt m st + (ls.map (fun l => l.status_code)).count st := by
  induction ls with
  | nil => intro m st; simp
  | cons l rest ih =>
    intro m st
    rw [List.foldl_cons, ih]
    by_cases h : l.status_code = st
    · subst h
      simp [valAt, lookupStatus_bump_same, List.count_cons]
      omega
    · rw [valAt, lookupStatus_bump_other (fun hb => h hb.symm)]
      simp [valAt, List.count_cons, h]

theorem statusFold_total (ls : List CheckResult) :
    ∀ m : List (Nat × Nat),
      countsTotal (ls.foldl (fun m l => bumpStatus m l.status_code) m) =
        countsTotal m + ls.length := by
  induction ls with
  | nil => intro m; simp
  | cons l rest ih =>
    intro m
    rw [List.foldl_cons, ih, countsTotal_bump]
    simp
    omega

theorem statusFold_pos (ls : List CheckResult) :
    ∀ m : List (Nat × Nat), (∀ p ∈ m, 0 < p.2) →
      ∀ p ∈ ls.foldl (fun m l => bumpStatus m l.status_code) m, 0 < p.2 := by
  induction ls with
  | nil => intro m hm; exact hm
  | cons l rest ih =>
    intro m hm
    rw [List.foldl_cons]
    exact ih _ (bump_pos hm)

theorem round2_zero : round2 0 = 0 := by
  norm_num [round2]

/-! ## Claim theorem C5 -/

/-- C5: for every session state, the report satisfies
`broken_count + valid_count = total_checks`; the broken percentage is
`round(broken/total*100, 2)` when `total > 0` and `0` when `total = 0`;
and `broken_by_status` maps exactly the status classifications occurring
among broken links (the sentinel `0` included) to their positive
occurrence counts, the counts summing to `broken_count`. -/
theorem generate_report_aggregation :
    ∀ (env : CrawlEnv) (s : Session) (now : Nat),
      (generate_report env s now).broken_links_count +
          (generate_report env s now).valid_links_count =
        (generate_report env s now).total_links_checked
      ∧ (0 < (generate_report env s now).total_links_checked →
          (generate_report env s now).broken_percentage =
            round2 (((generate_report env s now).broken_links_count : ℚ) /
              ((generate_report env s now).total_links_checked : ℚ) * 100))
      ∧ ((generate_report env s now).total_links_checked = 0 →
          (generate_report env s now).broken_percentage = 0)
      ∧ (∀ st : Nat,
          lookupStatus (generate_report env s now).broken_by_status st ≠ none ↔
            st ∈ s.broken_links.map (fun l => l.status_code))
      ∧ (∀ st c : Nat,
          lookupStatus (generate_report env s now).broken_by_status st = some c →
            c = (s.broken_links.map (fun l => l.status_code)).count st ∧ 0 < c)
      ∧ countsTotal (generate_report env s now).broken_by_status =
          (generate_report env s now).broken_links_count := by
  intro env s now
  have hbbs : (generate_report env s now).broken_by_status =
      s.broken_links.foldl (fun m l => bumpStatus m l.status_code) [] := rfl
  have hcount : (generate_report env s now).broken_links_count = s.broken_links.length := rfl
  have htotal : (generate_report env s now).total_links_checked =
      s.broken_links.length + s.valid_links.length := rfl
  refine ⟨rfl, ?_, ?_, ?_, ?_, ?_⟩
  · intro h
    have hper : (generate_report env s now).broken_percentage =
        round2 (if 0 < s.broken_links.length + s.valid_links.length then
          ((s.broken_links.length : ℚ)) /
            ((s.broken_links.length + s.valid_links.length : Nat) : ℚ) * 100
        else 0) := rfl
    rw [hper, if_pos (htotal ▸ h), hcount, htotal]
  · intro h
    have hper : (generate_report env s now).broken_percentage =
        round2 (if 0 < s.broken_links.length + s.valid_links.length then
          ((s.broken_links.length : ℚ)) /
            ((s.broken_links.length + s.valid_links.length : Nat) : ℚ) * 100
        else 0) := rfl
    rw [hper, if_neg (by omega : ¬ 0 < s.broken_links.length + s.valid_links.length)]
    · exact round2_zero
  · intro st
    rw [hbbs]
    constructor
    · intro h
      match hl : lookupStatus (s.broken_links.foldl
          (fun m l => bumpStatus m l.status_code) []) st with
      | none => exact absurd hl h
      | some c =>
        have hv : valAt (s.broken_links.foldl
            (fun m l => bumpStatus m l.status_code) []) st = c := by
          rw [valAt, hl]; rfl
        have hc := statusFold_valAt s.broken_links [] st
        rw [hv] at hc
        have hpos : 0 < c :=
          statusFold_pos s.broken_links [] (by simp) _ (mem_of_lookupStatus hl)
        have hcnt : 0 < (s.broken_links.map (fun l => l.status_code)).count st := by
          rw [valAt] at hc
          simp [lookupStatus] at hc
          omega
        exact List.count_pos_iff.mp hcnt
    · intro h hnone
      have hc := statusFold_valAt s.broken_links [] st
      rw [valAt, hnone] at hc
      have hcnt : 0 < (s.broken_links.map (fun l => l.status_code)).count st :=
        List.count_pos_iff.mpr h
      simp [valAt, lookupStatus] at hc
      omega
  · intro st c hl
    rw [hbbs] at hl
    have hv : valAt (s.broken_links.foldl
        (fun m l => bumpStatus m l.status_code) []) st = c := by
      rw [valAt, hl]; rfl
    have hc := statusFold_valAt s.broken_links [] st
    rw [hv] at hc
    have hpos : 0 < c :=
      statusFold_pos s.broken_links [] (by simp) _ (mem_of_lookupStatus hl)
    refine ⟨?_, hpos⟩
    rw [hc]
    simp [valAt, lookupStatus]
  · rw [hbbs, hcount, statusFold_total s.broken_links []]
    simp [countsTotal]

/-- C5 (witness): on a session with one broken (404) and one valid (200)
result, the implications are discharged at `total = 2`, `st = 404`. -/
theorem generate_report_aggregation_witness :
    (generate_report env1 sessionR 3).broken_percentage =
      round2 (((generate_report env1 sessionR 3).broken_links_count : ℚ) /
        ((generate_report env1 sessionR 3).total_links_checked : ℚ) * 100)
    ∧ (1 = (sessionR.broken_links.map (fun l => l.status_code)).count 404 ∧ 0 < 1) :=
  ⟨(generate_report_aggregation env1 sessionR 3).2.1 (by decide),
   (generate_report_aggregation env1 sessionR 3).2.2.2.2.1 404 1 (by decide)⟩

/-! ## Claim theorems C4 -/

/-- C4 (counterexample): `generate_report` stamps the report with the
wall-clock reading (`datetime.now().isoformat()`), so two calls on an
unchanged session taken at different instants return unequal reports. -/
theorem generate_report_not_call_invariant :
    (generate_report env1 sessionR 0).scan_date = 0
    ∧ (generate_report env1 sessionR 1).scan_date = 1
    ∧ generate_report env1 sessionR 0 ≠ generate_report env1 sessionR 1 :=
  ⟨rfl, rfl, fun h => absurd (congrArg Report.scan_date h) (by decide)⟩

/-- C4 (amended): every report field except `scan_date` is a deterministic
function of the session state alone — two calls on an unchanged session
agree on everything but the timestamp, and agree entirely when they read
the same clock value; the session itself is left unchanged (the embedding
of `generate_report` only reads it). -/
theorem generate_report_deterministic_amended :
    ∀ (env : CrawlEnv) (s : Session) (t1 t2 : Nat),
      reportSansDate (generate_report env s t1) = reportSansDate (generate_report env s t2)
      ∧ (t1 = t2 → generate_report env s t1 = generate_report env s t2) :=
  fun _ _ _ _ => ⟨rfl, fun h => by rw [h]⟩

/-- C4 (witness for the amended theorem): equal clock readings give equal
reports. -/
theorem generate_report_deterministic_amended_witness :
    generate_report env1 sessionR 5 = generate_report env1 sessionR 5 :=
  (generate_report_deterministic_amended env1 sessionR 5 5).2 rfl

/-! ## Claim theorems C6, C10 -/

/-- C6 (counterexample): the timeout failure mode and the generic
exception failure mode can report the SAME reason string — a generic
transport exception whose message is `Timeout` is indistinguishable, by
reason, from a request timeout; the three reasons are not pairwise
distinct. -/
theorem check_link_reasons_collide :
    (check_link siteA none HttpOutcome.timeout HttpOutcome.timeout 0).error =
      some ("Timeout".data)
    ∧ (check_link siteA none (HttpOutcome.otherError ("Timeout".data))
        HttpOutcome.timeout 0).error = some ("Timeout".data)
    ∧ (check_link siteA none HttpOutcome.timeout HttpOutcome.timeout 0).error =
        (check_link siteA none (HttpOutcome.otherError ("Timeout".data))
          HttpOutcome.timeout 0).error :=
  ⟨rfl, rfl, rfl⟩

/-- C6 (amended): an HTTP response (after the 405 GET fallback, if taken)
of status ≥ 400 is classified broken and < 400 valid, both with no failure
reason; each of the three failure modes — raised by the HEAD request or by
the fallback GET — yields status sentinel 0, `is_broken = true` and a
reason string; the timeout and connection-failure reasons are the distinct
fixed strings `Timeout` and `Connection Error`, while the other-exception
reason is the exception's own message, which is not guaranteed distinct
from the fixed two. -/
theorem check_link_classification_amended :
    ∀ (url : Url) (sp : Option Url) (g : HttpOutcome) (now : Nat),
      (∀ (st : Nat) (t : ℚ), st ≠ 405 →
        (check_link url sp (HttpOutcome.response st t) g now).status_code = st
        ∧ (check_link url sp (HttpOutcome.response st t) g now).is_broken = decide (st ≥ 400)
        ∧ (check_link url sp (HttpOutcome.response st t) g now).error = none)
      ∧ (∀ (t t2 : ℚ) (st2 : Nat),
        (check_link url sp (HttpOutcome.response 405 t)
            (HttpOutcome.response st2 t2) now).status_code = st2
        ∧ (check_link url sp (HttpOutcome.response 405 t)
            (HttpOutcome.response st2 t2) now).is_broken = decide (st2 ≥ 400)
        ∧ (check_link url sp (HttpOutcome.response 405 t)
            (HttpOutcome.response st2 t2) now).error = none)
      ∧ check_link url sp HttpOutcome.timeout g now =
          ⟨url, 0, none, sp, true, some ("Timeout".data), now⟩
      ∧ check_link url sp HttpOutcome.connectionError g now =
          ⟨url, 0, none, sp, true, some ("Connection Error".data), now⟩
      ∧ (∀ msg : List Char, check_link url sp (HttpOutcome.otherError msg) g now =
          ⟨url, 0, none, sp, true, some msg, now⟩)
      ∧ (∀ t : ℚ,
          check_link url sp (HttpOutcome.response 405 t) HttpOutcome.timeout now =
            ⟨url, 0, none, sp, true, some ("Timeout".data), now⟩
          ∧ check_link url sp (HttpOutcome.response 405 t) HttpOutcome.connectionError now =
            ⟨url, 0, none, sp, true, some ("Connection Error".data), now⟩
          ∧ ∀ msg : List Char,
              check_link url sp (HttpOutcome.response 405 t) (HttpOutcome.otherError msg) now =
                ⟨url, 0, none, sp, true, some msg, now⟩)
      ∧ ("Timeout".data) ≠ ("Connection Error".data) := by
  intro url sp g now
  refine ⟨?_, ?_, rfl, rfl, fun msg => rfl, fun t => ⟨rfl, rfl, fun msg => rfl⟩, by decide⟩
  · intro st t hst
    simp only [check_link, if_neg hst]
    exact ⟨trivial, trivial, trivial⟩
  · intro t t2 st2
    exact ⟨rfl, rfl, rfl⟩

/-- C6 (witness for the amended theorem): the happy path at status 200. -/
theorem check_link_classification_amended_witness :
    (check_link siteA (some siteRoot) (HttpOutcome.response 200 0)
        (HttpOutcome.response 200 0) 7).status_code = 200
    ∧ (check_link siteA (some siteRoot) (HttpOutcome.response 200 0)
        (HttpOutcome.response 200 0) 7).is_broken = decide ((200 : Nat) ≥ 400)
    ∧ (check_link siteA (some siteRoot) (HttpOutcome.response 200 0)
        (HttpOutcome.response 200 0) 7).error = none :=
  (check_link_classification_amended siteA (some siteRoot)
    (HttpOutcome.response 200 0) 7).1 200 0 (by decide)

/-- C10: every failure-mode result of `check_link` (timeout, connection
error or other exception, whether raised by the HEAD request or by the 405
fallback GET) records `response_time = None`; only a result produced from
an actual HTTP response carries a response time, and it is the measured
elapsed time rounded to two decimal places. -/
theorem check_link_response_time :
    ∀ (url : Url) (sp : Option Url) (g : HttpOutcome) (now : Nat),
      (check_link url sp HttpOutcome.timeout g now).response_time = none
      ∧ (check_link url sp HttpOutcome.connectionError g now).response_time = none
      ∧ (∀ msg : List Char,
          (check_link url sp (HttpOutcome.otherError msg) g now).response_time = none)
      ∧ (∀ t : ℚ,
          (check_link url sp (HttpOutcome.response 405 t)
            HttpOutcome.timeout now).response_time = none
          ∧ (check_link url sp (HttpOutcome.response 405 t)
              HttpOutcome.connectionError now).response_time = none
          ∧ ∀ msg : List Char,
              (check_link url sp (HttpOutcome.response 405 t)
                (HttpOutcome.otherError msg) now).response_time = none)
      ∧ (∀ (st : Nat) (t : ℚ), st ≠ 405 →
          (check_link url sp (HttpOutcome.response st t) g now).response_time =
            some (round2 t))
      ∧ (∀ (t t2 : ℚ) (st2 : Nat),
          (check_link url sp (HttpOutcome.response 405 t)
            (HttpOutcome.response st2 t2) now).response_time = some (round2 t2)) := by
  intro url sp g now
  refine ⟨rfl, rfl, fun msg => rfl, fun t => ⟨rfl, rfl, fun msg => rfl⟩, ?_,
    fun t t2 st2 => rfl⟩
  intro st t hst
  simp only [check_link, if_neg hst]

/-- C10 (witness): the rounded elapsed time is recorded on a 200 response. -/
theorem check_link_response_time_witness :
    (check_link siteA (some siteRoot) (HttpOutcome.response 200 0)
        (HttpOutcome.response 200 0) 7).response_time = some (round2 0) :=
  (check_link_response_time siteA (some siteRoot)
    (HttpOutcome.response 200 0) 7).2.2.2.2.1 200 0 (by decide)

end LinkCheck
